import Mathlib

/-!
Verification development for the Single-Page-Computer repository's rule
engine (the `AxisRulesEngine` class of the canonical engine source, and
`SPCEngine` from `axis-cli/src/engine.js`).

The engine operates on JSON data.  We model JSON values as an inductive
type; JavaScript numbers are modelled by integers (every number in the
rule surface relevant to the claims is an integer, and `JSON.stringify`
is injective on such values, so structural equality of this type
coincides with the engine's stringify-based equality checks).  JS
`undefined` is modelled as `null` where it can arise; both are only ever
observed through truthiness, where they agree.

The engine evaluates conditions and templates by compiling strings to
JavaScript with `new Function(...)`.  We embed the integer/boolean/string
fragment of that expression language (arithmetic, comparisons, negation,
identifier lookup, parentheses) with a tokenizer, parser and evaluator;
constructs outside the fragment are modelled as evaluation failures,
which the engine treats the same way as any thrown exception.
-/

namespace SPC

mutual
/-- JSON-compatible values (the engine's state universe).  Object fields
keep insertion order, mirroring JS objects and `JSON.stringify`. -/
inductive Json where
  | null : Json
  | bool (b : Bool) : Json
  | num (n : Int) : Json
  | str (s : String) : Json
  | arr (elems : JsonList) : Json
  | obj (fields : JsonFields) : Json
/-- A list of JSON values (array elements). -/
inductive JsonList where
  | nil : JsonList
  | cons (hd : Json) (tl : JsonList) : JsonList
/-- Ordered fields of a JSON object. -/
inductive JsonFields where
  | nil : JsonFields
  | cons (key : String) (val : Json) (tl : JsonFields) : JsonFields
end

deriving instance DecidableEq for Json
deriving instance DecidableEq for JsonList
deriving instance DecidableEq for JsonFields

/-- Read a field of a JSON object's field list (first match; JS objects
have at most one entry per key). -/
def JsonFields.get : JsonFields → String → Option Json
  | .nil, _ => none
  | .cons k v rest, key => if k = key then some v else rest.get key

/-- Assign a field: overwrite in place if the key exists (keeping its
position, as JS property assignment does), else append. -/
def JsonFields.set : JsonFields → String → Json → JsonFields
  | .nil, key, v => .cons key v .nil
  | .cons k v' rest, key, v =>
      if k = key then .cons k v rest else .cons k v' (rest.set key v)

/-- The fields as a Lean association list (used to build evaluation
contexts). -/
def JsonFields.toList : JsonFields → List (String × Json)
  | .nil => []
  | .cons k v rest => (k, v) :: rest.toList

/-- JS `Boolean(v)` on a JSON value. -/
def truthy : Json → Bool
  | .null => false
  | .bool b => b
  | .num n => n ≠ 0
  | .str s => s ≠ ""
  | .arr _ => true
  | .obj _ => true

/-- Values an identifier can resolve to in the evaluation scope: either a
piece of JSON data from the state, or one of the allow-listed host
utilities (`Math`, `Date`, ... — opaque objects for our purposes). -/
inductive CtxVal where
  | json (v : Json) : CtxVal
  | builtin (name : String) : CtxVal
  deriving DecidableEq

/-- The ambient nondeterministic inputs read by the engine's template
builtins (`now()`, `timestamp()`, `uuid()`): the `Date` and
`Math.random` reads of the source, made explicit as a parameter.  The
source draws a fresh value at every resolution; this model supplies the
same value at each draw within one call, so it represents exactly the
executions whose draws within a call coincide (as with a
millisecond-resolution clock inside a fast loop — a real `uuid()` run
whose draws differ keeps changing the state and caps out instead).  The
concrete scenarios proved below are chosen so that this matters nowhere:
they perform a single draw per call, or rely on the same-millisecond
coincidence explicitly. -/
structure Oracle where
  now : String
  timestamp : Int
  uuid : String
  deriving DecidableEq

/-! ## Expression language (the `new Function("return <expr>")` fragment) -/

/-- Tokens of the embedded expression fragment. -/
inductive Tok where
  | int (n : Nat) : Tok
  | ident (s : String) : Tok
  | lt | gt | le | ge | eqq | neq
  | plus | minus | star | bang
  | lparen | rparen
  deriving DecidableEq

/-- Is this a character that may start a JS identifier? -/
def isIdentStart (c : Char) : Bool := c.isAlpha || c = '_' || c = '$'

/-- Is this a character that may continue a JS identifier? -/
def isIdentChar (c : Char) : Bool := isIdentStart c || c.isDigit

/-- Longest prefix of characters satisfying `p`, and the rest. -/
def spanChars (p : Char → Bool) : List Char → List Char × List Char
  | [] => ([], [])
  | c :: cs =>
      if p c then
        let (pre, post) := spanChars p cs
        (c :: pre, post)
      else ([], c :: cs)

/-- Decimal digits to a number. -/
def digitsToNat (ds : List Char) : Nat :=
  ds.foldl (fun acc c => acc * 10 + (c.toNat - '0'.toNat)) 0

/-- Tokenize an expression string; `none` models a JS `SyntaxError` on a
character outside the fragment.  `fuel` bounds recursion (call sites pass
the character count, which suffices since every step consumes a
character). -/
def tokenizeGo : Nat → List Char → Option (List Tok)
  | 0, [] => some []
  | 0, _ :: _ => none
  | _ + 1, [] => some []
  | fuel + 1, c :: cs =>
      if c = ' ' || c = '\t' || c = '\n' || c = '\r' then tokenizeGo fuel cs
      else if c.isDigit then
        let (ds, rest) := spanChars Char.isDigit (c :: cs)
        (tokenizeGo fuel rest).map (fun ts => .int (digitsToNat ds) :: ts)
      else if isIdentStart c then
        let (is, rest) := spanChars isIdentChar (c :: cs)
        (tokenizeGo fuel rest).map (fun ts => .ident ⟨is⟩ :: ts)
      else if c = '<' then
        match cs with
        | '=' :: rest => (tokenizeGo fuel rest).map (fun ts => .le :: ts)
        | rest => (tokenizeGo fuel rest).map (fun ts => .lt :: ts)
      else if c = '>' then
        match cs with
        | '=' :: rest => (tokenizeGo fuel rest).map (fun ts => .ge :: ts)
        | rest => (tokenizeGo fuel rest).map (fun ts => .gt :: ts)
      else if c = '=' then
        match cs with
        | '=' :: '=' :: rest => (tokenizeGo fuel rest).map (fun ts => .eqq :: ts)
        | '=' :: rest => (tokenizeGo fuel rest).map (fun ts => .eqq :: ts)
        | _ => none
      else if c = '!' then
        match cs with
        | '=' :: '=' :: rest => (tokenizeGo fuel rest).map (fun ts => .neq :: ts)
        | '=' :: rest => (tokenizeGo fuel rest).map (fun ts => .neq :: ts)
        | rest => (tokenizeGo fuel rest).map (fun ts => .bang :: ts)
      else if c = '+' then (tokenizeGo fuel cs).map (fun ts => .plus :: ts)
      else if c = '-' then (tokenizeGo fuel cs).map (fun ts => .minus :: ts)
      else if c = '*' then (tokenizeGo fuel cs).map (fun ts => .star :: ts)
      else if c = '(' then (tokenizeGo fuel cs).map (fun ts => .lparen :: ts)
      else if c = ')' then (tokenizeGo fuel cs).map (fun ts => .rparen :: ts)
      else none

/-- Tokenize a string. -/
def tokenize (s : String) : Option (List Tok) := tokenizeGo s.data.length s.data

/-- Binary operators of the fragment.  `==`/`===` (and `!=`/`!==`) are
both mapped to strict same-type comparison; the coercing behaviour of
loose equality on mixed types is outside the fragment. -/
inductive BinOp where
  | lt | gt | le | ge | eqq | neq | add | sub | mul
  deriving DecidableEq

/-- Expressions of the fragment. -/
inductive Exp where
  | intLit (n : Nat) : Exp
  | boolLit (b : Bool) : Exp
  | nullLit : Exp
  | var (name : String) : Exp
  | binop (op : BinOp) (a b : Exp) : Exp
  | notE (a : Exp) : Exp
  | negE (a : Exp) : Exp
  deriving DecidableEq

mutual
/-- Comparison level: `additive (relop additive)?`. -/
def parseCmp : Nat → List Tok → Option (Exp × List Tok)
  | 0, _ => none
  | fuel + 1, ts => do
      let (a, ts) ← parseAdd fuel ts
      match ts with
      | .lt :: rest => do let (b, rest) ← parseAdd fuel rest; pure (.binop .lt a b, rest)
      | .gt :: rest => do let (b, rest) ← parseAdd fuel rest; pure (.binop .gt a b, rest)
      | .le :: rest => do let (b, rest) ← parseAdd fuel rest; pure (.binop .le a b, rest)
      | .ge :: rest => do let (b, rest) ← parseAdd fuel rest; pure (.binop .ge a b, rest)
      | .eqq :: rest => do let (b, rest) ← parseAdd fuel rest; pure (.binop .eqq a b, rest)
      | .neq :: rest => do let (b, rest) ← parseAdd fuel rest; pure (.binop .neq a b, rest)
      | _ => pure (a, ts)
/-- Additive level, left associative. -/
def parseAdd : Nat → List Tok → Option (Exp × List Tok)
  | 0, _ => none
  | fuel + 1, ts => do
      let (a, ts) ← parseMul fuel ts
      parseAddRest fuel a ts
def parseAddRest : Nat → Exp → List Tok → Option (Exp × List Tok)
  | 0, _, _ => none
  | fuel + 1, a, ts =>
      match ts with
      | .plus :: rest => do
          let (b, rest) ← parseMul fuel rest
          parseAddRest fuel (.binop .add a b) rest
      | .minus :: rest => do
          let (b, rest) ← parseMul fuel rest
          parseAddRest fuel (.binop .sub a b) rest
      | _ => pure (a, ts)
/-- Multiplicative level, left associative. -/
def parseMul : Nat → List Tok → Option (Exp × List Tok)
  | 0, _ => none
  | fuel + 1, ts => do
      let (a, ts) ← parseUnary fuel ts
      parseMulRest fuel a ts
def parseMulRest : Nat → Exp → List Tok → Option (Exp × List Tok)
  | 0, _, _ => none
  | fuel + 1, a, ts =>
      match ts with
      | .star :: rest => do
          let (b, rest) ← parseUnary fuel rest
          parseMulRest fuel (.binop .mul a b) rest
      | _ => pure (a, ts)
/-- Unary level: `!`, unary minus, else primary. -/
def parseUnary : Nat → List Tok → Option (Exp × List Tok)
  | 0, _ => none
  | fuel + 1, ts =>
      match ts with
      | .bang :: rest => do let (a, rest) ← parseUnary fuel rest; pure (.notE a, rest)
      | .minus :: rest => do let (a, rest) ← parseUnary fuel rest; pure (.negE a, rest)
      | _ => parsePrim fuel ts
/-- Primary: literal, identifier (with `true`/`false`/`null` as keyword
literals), parenthesized expression. -/
def parsePrim : Nat → List Tok → Option (Exp × List Tok)
  | 0, _ => none
  | fuel + 1, ts =>
      match ts with
      | .int n :: rest => pure (.intLit n, rest)
      | .ident "true" :: rest => pure (.boolLit true, rest)
      | .ident "false" :: rest => pure (.boolLit false, rest)
      | .ident "null" :: rest => pure (.nullLit, rest)
      | .ident x :: rest => pure (.var x, rest)
      | .lparen :: rest => do
          let (a, rest) ← parseCmp fuel rest
          match rest with
          | .rparen :: rest => pure (a, rest)
          | _ => none
      | _ => none
end

/-- Parse a complete token list as one expression. -/
def parseToks (ts : List Tok) : Option Exp := do
  let (a, rest) ← parseCmp (ts.length * 2 + 4) ts
  match rest with
  | [] => pure a
  | _ => none

/-- Evaluate a binary operation.  Arithmetic and ordering require
numbers; (strict) equality requires primitives of the same type.  All
other combinations are outside the modelled fragment and count as
evaluation failures. -/
def evalBinOp : BinOp → Json → Json → Option Json
  | .lt, .num a, .num b => some (.bool (a < b))
  | .gt, .num a, .num b => some (.bool (a > b))
  | .le, .num a, .num b => some (.bool (a ≤ b))
  | .ge, .num a, .num b => some (.bool (a ≥ b))
  | .add, .num a, .num b => some (.num (a + b))
  | .sub, .num a, .num b => some (.num (a - b))
  | .mul, .num a, .num b => some (.num (a * b))
  | .eqq, .num a, .num b => some (.bool (a = b))
  | .eqq, .str a, .str b => some (.bool (a = b))
  | .eqq, .bool a, .bool b => some (.bool (a = b))
  | .eqq, .null, .null => some (.bool true)
  | .neq, .num a, .num b => some (.bool (a ≠ b))
  | .neq, .str a, .str b => some (.bool (a ≠ b))
  | .neq, .bool a, .bool b => some (.bool (a ≠ b))
  | .neq, .null, .null => some (.bool false)
  | _, _, _ => none

/-- Evaluate an expression against an identifier-lookup scope.  An
unresolved identifier models the JS `ReferenceError`; a reference to a
host utility as a bare value is outside the fragment. -/
def evalExp (lookup : String → Option CtxVal) : Exp → Option Json
  | .intLit n => some (.num n)
  | .boolLit b => some (.bool b)
  | .nullLit => some .null
  | .var x =>
      match lookup x with
      | some (.json v) => some v
      | some (.builtin _) => none
      | none => none
  | .binop op a b => do
      let va ← evalExp lookup a
      let vb ← evalExp lookup b
      evalBinOp op va vb
  | .notE a => do
      let va ← evalExp lookup a
      pure (.bool (!truthy va))
  | .negE a => do
      let va ← evalExp lookup a
      match va with
      | .num n => pure (.num (-n))
      | _ => none

/-- Compile-and-run an expression string (`new Function(..., "return
<s>")` followed by the call): tokenize, parse, evaluate.  `none` models a
thrown `SyntaxError` or runtime exception. -/
def evalExprStr (lookup : String → Option CtxVal) (s : String) : Option Json := do
  let ts ← tokenize s
  let e ← parseToks ts
  evalExp lookup e

end SPC

/-! ## Context Builder (`AxisRulesEngine.createSafeContext` / `flattenObject`) -/

namespace SPC

/-- JS `String.prototype.trim`: strip leading and trailing whitespace
(implemented on the character list so it evaluates by kernel reduction). -/
def trimString (s : String) : String :=
  ⟨((s.data.dropWhile Char.isWhitespace).reverse.dropWhile Char.isWhitespace).reverse⟩

/-- JS `path.split('.')`. -/
def splitDotAux : List Char → List Char → List String
  | [], acc => [⟨acc.reverse⟩]
  | c :: rest, acc =>
      if c = '.' then ⟨acc.reverse⟩ :: splitDotAux rest []
      else splitDotAux rest (c :: acc)

/-- Split a path string on dots. -/
def splitPath (s : String) : List String := splitDotAux s.data []

/-- Replace `.` with `_` in a key (the source's `newKey.replace(/\./g, '_')`). -/
def underscoreKey (s : String) : String :=
  ⟨s.data.map (fun c => if c = '.' then '_' else c)⟩

mutual
/-- `AxisRulesEngine.flattenObject`: flatten nested objects to
underscore-joined leaf keys.  Arrays and `null` are leaves (the source
recurses only into non-null, non-array `object`s); `for..in` over a
non-object yields nothing. -/
def flattenObject : Json → String → List (String × Json)
  | .obj fields, pre => flattenFields fields pre
  | _, _ => []
/-- Flatten the fields of an object under a path prefix. -/
def flattenFields : JsonFields → String → List (String × Json)
  | .nil, _ => []
  | .cons key v rest, pre =>
      let newKey := if pre = "" then key else pre ++ "." ++ key
      (match v with
       | .obj f => flattenFields f newKey
       | _ => [(underscoreKey newKey, v)]) ++ flattenFields rest pre
end

/-- The top-level entries contributed by `...context` (spreading a
non-object contributes no string-keyed entries relevant here). -/
def topEntries : Json → List (String × Json)
  | .obj fields => fields.toList
  | _ => []

/-- The allow-listed utility names merged into every evaluation scope. -/
def utilityNames : List String :=
  ["Math", "Date", "parseInt", "parseFloat", "String", "Number", "Boolean", "Array", "JSON"]

/-- `AxisRulesEngine.createSafeContext` as an ordered entry list:
`{ ...flattened, ...context, Math: Math, ... }`.  Later entries override
earlier ones on key collision, as in a JS object literal. -/
def createSafeContext (context : Json) : List (String × CtxVal) :=
  (flattenObject context "").map (fun p => (p.1, CtxVal.json p.2))
    ++ (topEntries context).map (fun p => (p.1, CtxVal.json p.2))
    ++ utilityNames.map (fun n => (n, CtxVal.builtin n))

/-- Look a name up in an entry list with JS object-literal semantics: the
last entry for a key wins. -/
def lookupLast (entries : List (String × CtxVal)) (name : String) : Option CtxVal :=
  entries.foldl (fun acc p => if p.1 = name then some p.2 else acc) none

/-- The identifier scope used by `evaluateCondition` / `resolveValue`. -/
def axisScope (context : Json) : String → Option CtxVal :=
  lookupLast (createSafeContext context)

/-- The ECMAScript reserved words (sloppy mode): a `new Function`
parameter with one of these names is a `SyntaxError`. -/
def reservedWords : List String :=
  ["break", "case", "catch", "class", "const", "continue", "debugger",
   "default", "delete", "do", "else", "enum", "export", "extends",
   "false", "finally", "for", "function", "if", "import", "in",
   "instanceof", "new", "null", "return", "super", "switch", "this",
   "throw", "true", "try", "typeof", "var", "void", "while", "with"]

/-- Is the string usable as a `new Function` parameter name in the
modelled fragment: a plain, non-reserved identifier?  (Keys that would
parse as something else entirely — a comma-separated list, a
destructuring pattern — are outside the fragment and treated as
construction failures.) -/
def validParamName (s : String) : Bool :=
  (match s.data with
   | [] => false
   | c :: rest => isIdentStart c && rest.all isIdentChar) &&
  !(reservedWords.contains s)

/-- The parameter names the engine passes to `new Function`:
`Object.keys(safeContext)` (duplicates collapse in the JS object but do
not change which names occur). -/
def ctxParamNames (context : Json) : List String :=
  (flattenObject context "").map Prod.fst ++ (topEntries context).map Prod.fst
    ++ utilityNames

/-- Can `new Function(...Object.keys(safeContext), body)` be constructed
at all?  The construction throws a `SyntaxError` — caught like any other
evaluation failure — whenever some context key is not a valid parameter
name (e.g. a state key `"a-b"` or `"0"`, both legal JSON). -/
def scopeConstructible (context : Json) : Bool :=
  (ctxParamNames context).all validParamName

/-! ## Expression Evaluator (`AxisRulesEngine.evaluateCondition` / `resolveValue`) -/

/-- The body built by the engine is `return <expr>`; a whitespace-only
expression is legal JS returning `undefined` (modelled as `null`). -/
def axisEvalRet (lookup : String → Option CtxVal) (s : String) : Option Json :=
  if trimString s = "" then some .null else evalExprStr lookup s

/-- A rule's `if` field: absent, a boolean literal, or an expression
string (the only shapes occurring in the repository's rule sets). -/
inductive CondV where
  | undef : CondV
  | bool (b : Bool) : CondV
  | str (s : String) : CondV
  deriving DecidableEq

/-- JS `!condition` on the supported condition shapes. -/
def condFalsy : CondV → Bool
  | .undef => true
  | .bool b => !b
  | .str s => s = ""

/-- `AxisRulesEngine.evaluateCondition`: `if (!condition) return true;`
then build `new Function(...Object.keys(safeContext), "return
<condition>")` and call it, `Boolean(...)` the result, and catch any
failure as `false`.  The construction itself fails when a context key is
not a valid parameter name — even for the boolean literal `true`, whose
body `return true` would otherwise always succeed. -/
def evaluateCondition (condition : CondV) (context : Json) : Bool :=
  if condFalsy condition then true
  else if !(scopeConstructible context) then false
  else
    match condition with
    | .undef => true
    | .bool b => b
    | .str s =>
        match axisEvalRet (axisScope context) s with
        | some v => truthy v
        | none => false

/-! ## Template splicing (`template.replace(/\{\{(.*?)\}\}/g, '$1')`) -/

/-- Does the character list contain the two-character sequence `ab`
(the source's `template.includes("&#96;ab&#96;")` checks, done on chars)? -/
def includesPair (a b : Char) : List Char → Bool
  | [] => false
  | [_] => false
  | x :: y :: rest => (x = a && y = b) || includesPair a b (y :: rest)

/-- Scan for the nearest closing `\x7d\x7d`, returning the characters
before it and those after.  The JS `.` in the lazy group does not match
line terminators, so a newline before the close means no match. -/
def findCloseBrace : List Char → Option (List Char × List Char)
  | [] => none
  | '\n' :: _ => none
  | '\r' :: _ => none
  | '}' :: '}' :: rest => some ([], rest)
  | c :: rest => (findCloseBrace rest).map (fun p => (c :: p.1, p.2))

/-- One pass of the global regex replace `/\x7b\x7b(.*?)\x7d\x7d/g → $1`:
each bracketed group is replaced by its contents; unmatched openers are
copied verbatim.  `fuel` bounds recursion (callers pass the length). -/
def spliceGo : Nat → List Char → List Char
  | 0, cs => cs
  | _ + 1, [] => []
  | fuel + 1, '{' :: '{' :: rest =>
      match findCloseBrace rest with
      | some (inner, after) => inner ++ spliceGo fuel after
      | none => '{' :: '{' :: spliceGo fuel rest
  | fuel + 1, c :: rest => c :: spliceGo fuel rest

/-- `template.replace(/\x7b\x7b(.*?)\x7d\x7d/g, '$1')`. -/
def spliceTemplates (s : String) : String := ⟨spliceGo s.data.length s.data⟩

/-- `AxisRulesEngine.resolveValue`: non-strings pass through; a string
containing both `\x7b\x7b` and `\x7d\x7d` anywhere has every bracketed
group spliced out, the result trimmed, checked against the three
builtins (which return before any `new Function` is built), then
evaluated in the safe context; any failure — including the construction
throwing on an invalid context key — returns the original string. -/
def resolveValue (template : Json) (context : Json) (o : Oracle) : Json :=
  match template with
  | .str s =>
      if includesPair '{' '{' s.data && includesPair '}' '}' s.data then
        let expression := trimString (spliceTemplates s)
        if expression = "now()" then .str o.now
        else if expression = "timestamp()" then .num o.timestamp
        else if expression = "uuid()" then .str o.uuid
        else if !(scopeConstructible context) then .str s
        else
          match axisEvalRet (axisScope context) expression with
          | some v => v
          | none => .str s
      else .str s
  | v => v

/-! ## Path Writer (`AxisRulesEngine.setNestedPath`) -/

/-- Walk/create intermediate objects along the split path and set the
final key.  A missing or non-object intermediate value is replaced by a
fresh object (the source's `!current[k] || typeof current[k] !==
'object'` check; descending *through* an array, which JS would permit
in-memory but which is invisible to `JSON.stringify`, is unreachable in
the claims' rule sets).  Writing into a primitive root would throw in
strict-mode JS; states are objects everywhere the engine is used. -/
def setPathGo (v : Json) : List String → Json → Json
  | [], j => j
  | [k], .obj fields => .obj (fields.set k v)
  | [_], j => j
  | k :: k' :: ks, .obj fields =>
      let child :=
        match fields.get k with
        | some (.obj f) => Json.obj f
        | _ => Json.obj .nil
      .obj (fields.set k (setPathGo v (k' :: ks) child))
  | _ :: _ :: _, j => j

/-- `AxisRulesEngine.setNestedPath` (pure: returns the updated object). -/
def setNestedPath (j : Json) (path : String) (v : Json) : Json :=
  setPathGo v (splitPath path) j

end SPC

/-! ## Rules, audit trail, conflicts, results -/

namespace SPC

/-- A declarative rule: `{ name, priority, if, then }`. -/
structure Rule where
  name : String
  priority : Option Int
  «if» : CondV
  «then» : Option (List (String × Json))
  deriving DecidableEq

/-- `a.priority || 999`: an absent — or zero, which is falsy — priority
defaults to 999. -/
def effPriority (r : Rule) : Int :=
  match r.priority with
  | some p => if p = 0 then 999 else p
  | none => 999

/-- A rules configuration: `{ max_iterations, rules }`. -/
structure RulesConfig where
  max_iterations : Option Nat
  rules : List Rule
  deriving DecidableEq

/-- `rulesConfig.max_iterations || 10` (zero is falsy). -/
def effMaxIterations (cfg : RulesConfig) : Nat :=
  match cfg.max_iterations with
  | some n => if n = 0 then 10 else n
  | none => 10

/-- Audit levels. -/
inductive Level where
  | info | warning | error
  deriving DecidableEq

/-- The audit messages the engine emits, abstracted from their exact
`${...}` string forms (the forms are pairwise non-overlapping, and only
`applied` messages carry the `Applied: ` prefix that `getRulesApplied`
filters on). -/
inductive Msg where
  | startingMsg : Msg
  | rulesCount (n : Nat) : Msg
  | execOrder (order : List (String × Option Int)) : Msg
  | iterationMark (n : Nat) : Msg
  | applied (name : String) : Msg
  | skipped (name : String) : Msg
  | conflictMsg (previousRule currentRule path : String) : Msg
  | conflictsResolved (n : Nat) : Msg
  | stoppedAtMax (n : Nat) : Msg
  | completedIn (n : Nat) : Msg
  deriving DecidableEq

/-- An audit entry.  The source also stamps each entry with
`new Date().toISOString()`; the timestamp is never consulted by the
engine logic and is omitted from the model. -/
structure AuditEntry where
  level : Level
  message : Msg
  deriving DecidableEq

/-- A conflict log entry. -/
structure Conflict where
  field : String
  previousRule : String
  currentRule : String
  resolution : String
  iteration : Nat
  deriving DecidableEq

/-- The value returned by `apply`. -/
structure Result where
  input : Json
  output : Json
  iterations : Nat
  audit : List AuditEntry
  conflicts : List Conflict
  rulesApplied : List String
  engine_version : String
  deriving DecidableEq

/-- `getRulesApplied`: the names carried by `Applied: ...` audit
messages, in emission order. -/
def getRulesApplied (audit : List AuditEntry) : List String :=
  audit.filterMap (fun e =>
    match e.message with
    | .applied n => some n
    | _ => none)

/-! ## Rule Applicator (`applyTransformationsWithTracking`) -/

/-- First-match lookup in the per-sweep write log (a JS `Map` has one
entry per key). -/
def lookupFirst (l : List (String × String)) (key : String) : Option String :=
  match l with
  | [] => none
  | (k, v) :: rest => if k = key then some v else lookupFirst rest key

/-- `Map.set`: overwrite an existing entry or append a new one. -/
def setAssoc (l : List (String × String)) (key v : String) : List (String × String) :=
  match l with
  | [] => [(key, v)]
  | (k, v') :: rest => if k = key then (k, v) :: rest else (k, v') :: setAssoc rest key v

/-- Output of one `applyTransformationsWithTracking` call: the new state,
the fields changed, the updated per-sweep write log, and the conflict
entries / conflict audit warnings appended during the call. -/
structure TransOut where
  newState : Json
  fieldsChanged : List String
  iterationChanges : List (String × String)
  conflicts : List Conflict
  auditMsgs : List AuditEntry
  deriving DecidableEq

/-- The entry loop of `applyTransformationsWithTracking`: for each
`(path, value)` pair in order, resolve the value against the current
(progressively mutated) new state, record a conflict if the path was
already written this sweep, update the write log, and write the value. -/
def applyTransGo (ruleName : String) (curIteration : Nat) (o : Oracle) :
    List (String × Json) → Json → List (String × String) → List Conflict →
    List AuditEntry → List String → TransOut
  | [], st, ic, co, au, fc => ⟨st, fc, ic, co, au⟩
  | (path, value) :: rest, st, ic, co, au, fc =>
      let resolvedValue := resolveValue value st o
      let (co', au') :=
        match lookupFirst ic path with
        | some previousRule =>
            (co ++ [⟨path, previousRule, ruleName, "priority_override", curIteration⟩],
             au ++ [⟨.warning, .conflictMsg previousRule ruleName path⟩])
        | none => (co, au)
      applyTransGo ruleName curIteration o rest
        (setNestedPath st path resolvedValue)
        (setAssoc ic path ruleName) co' au' (fc ++ [path])

/-- `AxisRulesEngine.applyTransformationsWithTracking` (the deep copy of
the state is the identity in a pure value model). -/
def applyTransformationsWithTracking (state : Json) (transformations : List (String × Json))
    (ruleName : String) (iterationChanges : List (String × String))
    (curIteration : Nat) (o : Oracle) : TransOut :=
  applyTransGo ruleName curIteration o transformations state iterationChanges [] [] []

/-! ## Fixpoint Driver (`AxisRulesEngine.apply`) -/

/-- Output of one full sweep over the sorted rules. -/
structure SweepOut where
  state : Json
  changed : Bool
  audit : List AuditEntry
  conflicts : List Conflict
  deriving DecidableEq

/-- The `for (let rule of sortedRules)` body: snapshot the serialized
state, evaluate the condition, log `Applied`/`Skipped`, apply the `then`
transformations if present, and set `changed` when the serialized state
differs after the rule.  `audit`/`conflicts` are the accumulated logs
(the conflict log spans all iterations). -/
def sweepRules (o : Oracle) (curIteration : Nat) :
    List Rule → Json → Bool → List (String × String) → List AuditEntry →
    List Conflict → SweepOut
  | [], st, ch, _, au, co => ⟨st, ch, au, co⟩
  | rule :: rest, st, ch, ic, au, co =>
      if evaluateCondition rule.«if» st then
        let au := au ++ [⟨.info, .applied rule.name⟩]
        match rule.«then» with
        | some transformations =>
            match applyTransformationsWithTracking st transformations rule.name ic
              curIteration o with
            | ⟨newState, _, ic', co', auMsgs⟩ =>
                sweepRules o curIteration rest newState (ch || !(st == newState))
                  ic' (au ++ auMsgs) (co ++ co')
        | none => sweepRules o curIteration rest st ch ic au co
      else
        sweepRules o curIteration rest st ch ic (au ++ [⟨.info, .skipped rule.name⟩]) co

/-- Output of the fixpoint loop. -/
structure LoopOut where
  state : Json
  iterations : Nat
  audit : List AuditEntry
  conflicts : List Conflict
  deriving DecidableEq

/-- The `while (changed && iteration < maxIterations)` loop.  `fuel` is
the number of sweeps the cap still permits (`maxIterations - iteration`),
so `fuel = 0` is exactly the cap check failing.  Each pass increments the
iteration counter, logs the iteration mark, runs a sweep with a fresh
write log, logs the running conflict count if nonzero, and continues
while the sweep changed the state. -/
def applyLoop (sortedRules : List Rule) (o : Oracle) :
    Nat → Nat → Json → List AuditEntry → List Conflict → LoopOut
  | 0, iteration, st, au, co => ⟨st, iteration, au, co⟩
  | fuel + 1, iteration, st, au, co =>
      match sweepRules o (iteration + 1) sortedRules st false []
          (au ++ [⟨.info, .iterationMark (iteration + 1)⟩]) co with
      | ⟨st', ch, au1, co1⟩ =>
          let au' := if co1.length > 0
            then au1 ++ [⟨.warning, .conflictsResolved co1.length⟩]
            else au1
          if ch then applyLoop sortedRules o fuel (iteration + 1) st' au' co1
          else ⟨st', iteration + 1, au', co1⟩

/-- Stable insertion into a priority-sorted list: the new rule goes after
every rule of lower-or-equal effective priority. -/
def insertByPriority (r : Rule) : List Rule → List Rule
  | [] => [r]
  | x :: xs =>
      if effPriority x ≤ effPriority r then x :: insertByPriority r xs
      else r :: x :: xs

/-- `[...rules].sort((a, b) => (a.priority || 999) - (b.priority || 999))`:
ascending by effective priority, ties in original order (JS `sort` is
stable per ES2019). -/
def sortRules (rules : List Rule) : List Rule :=
  rules.foldl (fun acc r => insertByPriority r acc) []

/-- `AxisRulesEngine.apply`: reset the logs, deep-copy the input (the
identity on pure values), sort the rules, run the fixpoint loop, append
the max-iterations warning when the cap was reached, and assemble the
result. -/
def initAudit (rulesConfig : RulesConfig) : List AuditEntry :=
  [⟨.info, .startingMsg⟩, ⟨.info, .rulesCount rulesConfig.rules.length⟩,
   ⟨.info, .execOrder ((sortRules rulesConfig.rules).map (fun r => (r.name, r.priority)))⟩]

def apply (inputData : Json) (rulesConfig : RulesConfig) (o : Oracle) : Result :=
  match applyLoop (sortRules rulesConfig.rules) o (effMaxIterations rulesConfig) 0 inputData
      (initAudit rulesConfig) [] with
  | ⟨outState, iters, auditLog, conflictLog⟩ =>
      let au' := if iters ≥ effMaxIterations rulesConfig
        then auditLog ++ [⟨.warning, .stoppedAtMax (effMaxIterations rulesConfig)⟩]
        else auditLog
      let au'' := au' ++ [⟨.info, .completedIn iters⟩]
      { input := inputData
        output := outState
        iterations := iters
        audit := au''
        conflicts := conflictLog
        rulesApplied := getRulesApplied au''
        engine_version := "1.0.0" }

end SPC

/-! ## `SPCEngine` (axis-cli/src/engine.js): whole-string template matching -/

namespace SPC
namespace SPCEngine

/-- The whole-string regex `^\x7b\x7b\s*(.*?)\s*\x7d\x7d$`: the string
must start with the opener and end with the closer; the captured group is
the inside trimmed of surrounding whitespace, and (since `.` matches no
line terminator while `\s` does) must itself contain no line break. -/
def wholeTemplateMatch (s : String) : Option String :=
  match s.data with
  | '{' :: '{' :: rest =>
      match rest.reverse with
      | '}' :: '}' :: midRev =>
          let inner := trimString (String.mk midRev.reverse)
          if inner.data.contains '\n' || inner.data.contains '\r' then none
          else some inner
      | _ => none
  | _ => none

/-- The scope of `SPCEngine` evaluation: `{ ...context, data: context }`
— the top-level entries of the context plus `data` bound to the whole
context, with the later `data` binding winning on collision.  No
flattening and no utility namespace here. -/
def scope (context : Json) (name : String) : Option CtxVal :=
  if name = "data" then some (.json context)
  else (lookupFirst ((topEntries context).map (fun p => (p.1, p.2))) name).map .json
  where lookupFirst : List (String × Json) → String → Option Json
    | [], _ => none
    | (k, v) :: rest, key => if k = key then some v else lookupFirst rest key

/-- Can `new Function(...Object.keys({...context, data: context}), body)`
be constructed: every top-level context key (plus `data`) must be a
valid parameter name. -/
def scopeConstructible (context : Json) : Bool :=
  ((topEntries context).map Prod.fst ++ ["data"]).all validParamName

/-- `SPCEngine.resolveTemplate`: only a whole-string `\x7b\x7b ... \x7d\x7d`
match is evaluated (the body is `return (<expr>)`, so an empty capture is
a `SyntaxError`, and an invalid context key makes the construction
itself throw); anything else — and any failure — passes through
verbatim. -/
def resolveTemplate (template : Json) (context : Json) : Json :=
  match template with
  | .str s =>
      match wholeTemplateMatch s with
      | none => .str s
      | some inner =>
          if !(SPCEngine.scopeConstructible context) then .str s
          else
            match (if inner = "" then none else evalExprStr (scope context) inner) with
            | some v => v
            | none => .str s
  | v => v

end SPCEngine
end SPC

/-! ## Proof infrastructure: the state/changed core of a sweep

`applyTransformationsWithTracking` and the sweep also thread logging
state (write log, audit, conflicts) that never feeds back into the state
evolution.  The following "pure" projections expose just the state and
the changed flag, and are proved to agree with the full definitions. -/

namespace SPC

/-- The state evolution performed by one rule's `then` entries. -/
def transFold (o : Oracle) : Json → List (String × Json) → Json
  | st, [] => st
  | st, (path, value) :: rest =>
      transFold o (setNestedPath st path (resolveValue value st o)) rest

end SPC

/-! ## Proof-infrastructure and claim-scenario definitions -/

namespace SPC

/-- The state/changed evolution of one full sweep over the rules. -/
def sweepPureGo (o : Oracle) : List Rule → Json × Bool → Json × Bool
  | [], sb => sb
  | rule :: rest, (st, ch) =>
      if evaluateCondition rule.«if» st then
        match rule.«then» with
        | some transformations =>
            let st' := transFold o st transformations
            sweepPureGo o rest (st', ch || !(st == st'))
        | none => sweepPureGo o rest (st, ch)
      else sweepPureGo o rest (st, ch)

/-- The loop as the specification words it: perform full sweeps until one
reports no change, but at most `fuel` of them; count the sweeps
performed.  (Clearly-named specification-side definition used to state
the termination claim; `applyLoop_char` proves the engine refines it.) -/
def specRunCount (o : Oracle) (rules : List Rule) : Json → Nat → Nat
  | _, 0 => 0
  | st, fuel + 1 =>
      match sweepPureGo o rules (st, false) with
      | (st', true) => 1 + specRunCount o rules st' fuel
      | (_, false) => 1

/-- The state after the sweeps counted by `specRunCount`. -/
def specRunState (o : Oracle) (rules : List Rule) : Json → Nat → Json
  | st, 0 => st
  | st, fuel + 1 =>
      match sweepPureGo o rules (st, false) with
      | (st', true) => specRunState o rules st' fuel
      | (st', false) => st'

/-- Does a `then` value hit one of the nondeterministic template builtins
(`now()`, `timestamp()`, `uuid()`) when resolved?  This is syntactic: the
spliced expression is computed from the template string alone. -/
def templateUsesBuiltin (v : Json) : Bool :=
  match v with
  | .str s =>
      includesPair '{' '{' s.data && includesPair '}' '}' s.data &&
        (decide (trimString (spliceTemplates s) = "now()") ||
         decide (trimString (spliceTemplates s) = "timestamp()") ||
         decide (trimString (spliceTemplates s) = "uuid()"))
  | _ => false

/-- No `then` value of the rule hits a nondeterministic builtin. -/
def builtinFreeRule (r : Rule) : Bool :=
  match r.«then» with
  | some tr => tr.all (fun p => !templateUsesBuiltin p.2)
  | none => true

/-- No rule of the configuration hits a nondeterministic builtin. -/
def builtinFreeConfig (cfg : RulesConfig) : Bool :=
  cfg.rules.all builtinFreeRule

/-- Does the string parse as an expression of the embedded fragment?
The fragment has no member access and no function calls, so an
expression that parses here cannot reach `Math.random()` / `Date.now()`
through the utility namespace, nor the `now()`/`timestamp()`/`uuid()`
builtins (calls do not parse) — its evaluation in the engine is a pure
function of the context. -/
def parsesInFragment (s : String) : Bool :=
  match tokenize s with
  | some ts => (parseToks ts).isSome
  | none => false

/-- A `then` value whose resolution is deterministic: not a template at
all, or a template whose spliced expression lies in the call-free,
member-access-free fragment. -/
def deterministicValue (v : Json) : Bool :=
  match v with
  | .str s =>
      !(includesPair '{' '{' s.data && includesPair '}' '}' s.data) ||
        parsesInFragment (trimString (spliceTemplates s))
  | _ => true

/-- A condition whose evaluation is deterministic: absent, boolean, the
falsy empty string (never evaluated), or an expression of the fragment. -/
def deterministicCond : CondV → Bool
  | .undef => true
  | .bool _ => true
  | .str s => decide (s = "") || parsesInFragment s

/-- Every condition and `then` value of the rule is deterministic. -/
def deterministicRule (r : Rule) : Bool :=
  deterministicCond r.«if» &&
    (match r.«then» with
     | some tr => tr.all (fun p => deterministicValue p.2)
     | none => true)

/-- Every rule of the configuration is deterministic. -/
def deterministicConfig (cfg : RulesConfig) : Bool :=
  cfg.rules.all deterministicRule


end SPC

/-! ## Claim scenarios -/

namespace SPC

/-- The spec's sample scenario: input `\x7b "a": 1 \x7d`. -/
def c1State : Json := .obj (.cons "a" (.num 1) .nil)

/-- The spec's sample scenario rule set: one `double` rule. -/
def c1Config : RulesConfig :=
  { max_iterations := some 10,
    rules := [{ name := "double", priority := some 1, «if» := .str "a < 10",
                «then» := some [("a", .str "\x7b\x7b a * 2 \x7d\x7d")] }] }

/-- The spec's conflict scenario rule set: two always-true rules writing
the same path. -/
def c2Config : RulesConfig :=
  { max_iterations := none,
    rules := [{ name := "r1", priority := some 1, «if» := .bool true,
                «then» := some [("status", .str "A")] },
              { name := "r2", priority := some 2, «if» := .bool true,
                «then» := some [("status", .str "B")] }] }

/-- A rule whose template is the `now()` builtin, with the iteration cap
set to 1 so each call performs exactly one draw — the per-call-constant
oracle model is then exact. -/
def c4Config : RulesConfig :=
  { max_iterations := some 1,
    rules := [{ name := "stamp", priority := some 1, «if» := .bool true,
                «then» := some [("t", .str "\x7b\x7bnow()\x7d\x7d")] }] }

/-- The `now()`-stamping rule under the default cap: a call whose two
clock draws coincide (same millisecond) converges in 2 iterations. -/
def c8NowConfig : RulesConfig :=
  { max_iterations := none,
    rules := [{ name := "stamp", priority := some 1, «if» := .bool true,
                «then» := some [("t", .str "\x7b\x7bnow()\x7d\x7d")] }] }

/-- A builtin-free rule set (the doubling rule) for the determinism
witness. -/
def c4FreeConfig : RulesConfig :=
  { max_iterations := some 10,
    rules := [{ name := "double", priority := some 1, «if» := .str "a < 10",
                «then» := some [("a", .str "\x7b\x7b a * 2 \x7d\x7d")] }] }

/-- A rule set that never converges (toggles `x` between 0 and 1). -/
def c5CapConfig : RulesConfig :=
  { max_iterations := none,
    rules := [{ name := "toggle", priority := some 1, «if» := .bool true,
                «then» := some [("x", .str "\x7b\x7b 1 - x \x7d\x7d")] }] }

/-- The doubling scenario again, local to the idempotence claim. -/
def c8Config : RulesConfig :=
  { max_iterations := some 10,
    rules := [{ name := "double", priority := some 1, «if» := .str "a < 10",
                «then» := some [("a", .str "\x7b\x7b a * 2 \x7d\x7d")] }] }

/-- Two rules with the same name writing the same path. -/
def c9Config : RulesConfig :=
  { max_iterations := none,
    rules := [{ name := "dup", priority := some 1, «if» := .bool true,
                «then» := some [("p", .num 1)] },
              { name := "dup", priority := some 2, «if» := .bool true,
                «then» := some [("p", .num 1)] }] }

end SPC


namespace SPC

theorem applyTransGo_newState (o : Oracle) (n : String) (it : Nat) :
    ∀ (entries : List (String × Json)) (st : Json) ic co au fc,
    (applyTransGo n it o entries st ic co au fc).newState = transFold o st entries := by
  intro entries
  induction entries with
  | nil => intro st ic co au fc; rfl
  | cons e rest ih =>
      intro st ic co au fc
      obtain ⟨path, value⟩ := e
      simp only [applyTransGo, transFold]
      cases lookupFirst ic path <;> exact ih _ _ _ _ _

theorem applyTrans_newState (st : Json) (tr : List (String × Json)) (n : String)
    (ic : List (String × String)) (it : Nat) (o : Oracle) :
    (applyTransformationsWithTracking st tr n ic it o).newState = transFold o st tr :=
  applyTransGo_newState o n it tr st ic [] [] []

theorem sweepRules_pure (o : Oracle) (it : Nat) :
    ∀ (rules : List Rule) (st : Json) (ch : Bool) ic au co,
    (sweepRules o it rules st ch ic au co).state = (sweepPureGo o rules (st, ch)).1 ∧
    (sweepRules o it rules st ch ic au co).changed = (sweepPureGo o rules (st, ch)).2 := by
  intro rules
  induction rules with
  | nil => intros; exact ⟨rfl, rfl⟩
  | cons rule rest ih =>
      intro st ch ic au co
      simp only [sweepRules, sweepPureGo]
      by_cases h : evaluateCondition rule.«if» st
      · simp only [h, if_true]
        cases hthen : rule.«then» with
        | none => simp only; exact ih _ _ _ _ _
        | some tr =>
            simp only [applyTrans_newState]
            exact ih _ _ _ _ _
      · simp only [h, if_false]
        exact ih _ _ _ _ _

theorem sweepPureGo_false (o : Oracle) :
    ∀ (rules : List Rule) (st : Json) (ch : Bool),
    (sweepPureGo o rules (st, ch)).2 = false →
    (sweepPureGo o rules (st, ch)).1 = st ∧ ch = false := by
  intro rules
  induction rules with
  | nil => intro st ch h; exact ⟨rfl, h⟩
  | cons rule rest ih =>
      intro st ch h
      simp only [sweepPureGo] at h ⊢
      by_cases hc : evaluateCondition rule.«if» st
      · simp only [hc, if_true] at h ⊢
        cases hthen : rule.«then» with
        | none => simp only [hthen] at h ⊢; exact ih _ _ h
        | some tr =>
            simp only [hthen] at h ⊢
            obtain ⟨h1, h2⟩ := ih _ _ h
            have hch : ch = false := by
              cases ch <;> simp_all
            have hst : st = transFold o st tr := by
              cases hbe : st == transFold o st tr with
              | true => exact eq_of_beq hbe
              | false => rw [hbe] at h2; simp [hch] at h2
            refine ⟨?_, hch⟩
            rw [h1, ← hst]
      · simp only [hc, if_false] at h ⊢
        exact ih _ _ h

end SPC

namespace SPC

theorem applyLoop_char (rules : List Rule) (o : Oracle) :
    ∀ (fuel it : Nat) (st : Json) (au : List AuditEntry) (co : List Conflict),
    (applyLoop rules o fuel it st au co).iterations = it + specRunCount o rules st fuel ∧
    (applyLoop rules o fuel it st au co).state = specRunState o rules st fuel := by
  intro fuel
  induction fuel with
  | zero => intros; exact ⟨by simp [applyLoop, specRunCount], rfl⟩
  | succ fuel ih =>
      intro it st au co
      cases hpp : sweepPureGo o rules (st, false) with
      | mk st2 b =>
          simp only [applyLoop, specRunCount, specRunState, hpp]
          cases hsw : sweepRules o (it + 1) rules st false []
              (au ++ [⟨.info, .iterationMark (it + 1)⟩]) co with
          | mk st1 ch au1 co1 =>
              have hp := sweepRules_pure o (it + 1) rules st false []
                (au ++ [⟨.info, .iterationMark (it + 1)⟩]) co
              rw [hsw, hpp] at hp
              simp only at hp
              obtain ⟨hst, hch⟩ := hp
              simp only [hst, hch]
              cases b with
              | true =>
                  simp only [if_true]
                  refine ⟨?_, (ih (it + 1) st2 _ co1).2⟩
                  rw [(ih (it + 1) st2 _ co1).1]
                  omega
              | false =>
                  simp only [if_false]
                  exact ⟨rfl, rfl⟩

theorem specRunCount_le (o : Oracle) (rules : List Rule) :
    ∀ (fuel : Nat) (st : Json), specRunCount o rules st fuel ≤ fuel := by
  intro fuel
  induction fuel with
  | zero => intro st; simp [specRunCount]
  | succ fuel ih =>
      intro st
      simp only [specRunCount]
      cases hpp : sweepPureGo o rules (st, false) with
      | mk st2 b =>
          cases b with
          | true => have := ih st2; simp only; omega
          | false => simp

theorem specRunCount_pos (o : Oracle) (rules : List Rule) (st : Json) (fuel : Nat)
    (h : 1 ≤ fuel) : 1 ≤ specRunCount o rules st fuel := by
  cases fuel with
  | zero => omega
  | succ fuel =>
      simp only [specRunCount]
      cases hpp : sweepPureGo o rules (st, false) with
      | mk st2 b => cases b <;> simp

theorem specRun_converged (o : Oracle) (rules : List Rule) :
    ∀ (fuel : Nat) (st : Json), specRunCount o rules st fuel < fuel →
    sweepPureGo o rules (specRunState o rules st fuel, false) =
      (specRunState o rules st fuel, false) := by
  intro fuel
  induction fuel with
  | zero => intro st h; omega
  | succ fuel ih =>
      intro st h
      cases hpp : sweepPureGo o rules (st, false) with
      | mk st2 b =>
          simp only [specRunCount, specRunState, hpp] at h ⊢
          cases b with
          | true =>
              simp only at h ⊢
              exact ih st2 (by omega)
          | false =>
              simp only
              have hfix := sweepPureGo_false o rules st false
              rw [hpp] at hfix
              obtain ⟨h1, -⟩ := hfix rfl
              simp only at h1
              subst h1
              exact hpp

theorem effMax_pos (cfg : RulesConfig) : 1 ≤ effMaxIterations cfg := by
  rcases h : cfg.max_iterations with _ | n
  · simp [effMaxIterations, h]
  · simp only [effMaxIterations, h]
    split <;> omega

theorem apply_iterations_eq (s : Json) (cfg : RulesConfig) (o : Oracle) :
    (apply s cfg o).iterations =
      specRunCount o (sortRules cfg.rules) s (effMaxIterations cfg) := by
  have hc := applyLoop_char (sortRules cfg.rules) o (effMaxIterations cfg) 0 s
    (initAudit cfg) []
  simp only [apply]
  cases happ : applyLoop (sortRules cfg.rules) o (effMaxIterations cfg) 0 s
      (initAudit cfg) [] with
  | mk st1 it1 au1 co1 =>
      rw [happ] at hc
      simpa using hc.1

theorem apply_output_eq (s : Json) (cfg : RulesConfig) (o : Oracle) :
    (apply s cfg o).output =
      specRunState o (sortRules cfg.rules) s (effMaxIterations cfg) := by
  have hc := applyLoop_char (sortRules cfg.rules) o (effMaxIterations cfg) 0 s
    (initAudit cfg) []
  simp only [apply]
  cases happ : applyLoop (sortRules cfg.rules) o (effMaxIterations cfg) 0 s
      (initAudit cfg) [] with
  | mk st1 it1 au1 co1 =>
      rw [happ] at hc
      simpa using hc.2

end SPC

namespace SPC

theorem mem_insertByPriority {x r : Rule} :
    ∀ l, x ∈ insertByPriority r l → x = r ∨ x ∈ l := by
  intro l
  induction l with
  | nil => intro h; simpa [insertByPriority] using h
  | cons a as ih =>
      intro h
      simp only [insertByPriority] at h
      split at h
      · rcases List.mem_cons.mp h with h1 | h1
        · right; simp [h1]
        · rcases ih h1 with h2 | h2
          · left; exact h2
          · right; simp [h2]
      · rcases List.mem_cons.mp h with h1 | h1
        · left; exact h1
        · right; exact h1

theorem mem_sortRules {x : Rule} {l : List Rule} (h : x ∈ sortRules l) : x ∈ l := by
  suffices H : ∀ (l : List Rule) (acc : List Rule),
      x ∈ List.foldl (fun acc r => insertByPriority r acc) acc l → x ∈ acc ∨ x ∈ l by
    rcases H l [] h with h1 | h1
    · simp at h1
    · exact h1
  intro l
  induction l with
  | nil => intro acc h; simpa using h
  | cons a as ih =>
      intro acc h
      rcases ih (insertByPriority a acc) h with h1 | h1
      · rcases mem_insertByPriority acc h1 with h2 | h2
        · right; simp [h2]
        · left; exact h2
      · right; simp [h1]

/-! No-fire lemmas: when no rule's condition ever holds, a sweep only
logs skips and the run converges immediately on the input state. -/

theorem sweepRules_nofire (o : Oracle) (it : Nat) :
    ∀ (rules : List Rule) (st : Json) (ch : Bool) ic au co,
    (∀ r ∈ rules, ∀ ctx, evaluateCondition r.«if» ctx = false) →
    sweepRules o it rules st ch ic au co =
      ⟨st, ch, au ++ rules.map (fun r => ⟨.info, .skipped r.name⟩), co⟩ := by
  intro rules
  induction rules with
  | nil => intro st ch ic au co _; simp [sweepRules]
  | cons rule rest ih =>
      intro st ch ic au co h
      have hc := h rule (by simp) st
      simp only [sweepRules, hc, Bool.false_eq_true, if_false]
      rw [ih st ch ic (au ++ [(⟨.info, .skipped rule.name⟩ : AuditEntry)]) co
        (fun r hr ctx => h r (by simp [hr]) ctx)]
      simp

theorem getRulesApplied_append (a b : List AuditEntry) :
    getRulesApplied (a ++ b) = getRulesApplied a ++ getRulesApplied b :=
  List.filterMap_append a b _

theorem apply_nofire (s : Json) (cfg : RulesConfig) (o : Oracle)
    (h : ∀ r ∈ cfg.rules, ∀ ctx, evaluateCondition r.«if» ctx = false) :
    (apply s cfg o).output = s ∧ (apply s cfg o).rulesApplied = [] := by
  have hs : ∀ r ∈ sortRules cfg.rules, ∀ ctx, evaluateCondition r.«if» ctx = false :=
    fun r hr ctx => h r (mem_sortRules hr) ctx
  obtain ⟨m, hm⟩ : ∃ m, effMaxIterations cfg = m + 1 := by
    have := effMax_pos cfg
    exact ⟨effMaxIterations cfg - 1, by omega⟩
  simp only [apply, hm]
  have hloop : applyLoop (sortRules cfg.rules) o (m + 1) 0 s (initAudit cfg) [] =
      ⟨s, 1, initAudit cfg ++ [⟨.info, .iterationMark 1⟩] ++
        (sortRules cfg.rules).map (fun r => ⟨.info, .skipped r.name⟩), []⟩ := by
    simp only [applyLoop, Nat.zero_add]
    rw [sweepRules_nofire o 1 (sortRules cfg.rules) s false []
      (initAudit cfg ++ [(⟨.info, .iterationMark 1⟩ : AuditEntry)]) [] hs]
    simp
  rw [hloop]
  refine ⟨rfl, ?_⟩
  simp only [getRulesApplied_append, getRulesApplied]
  have h1 : List.filterMap
      (fun e => match e.message with | .applied n => some n | _ => none)
      ((sortRules cfg.rules).map (fun r => (⟨.info, .skipped r.name⟩ : AuditEntry))) = [] := by
    rw [List.filterMap_map]
    apply List.filterMap_eq_nil_iff.mpr
    intro a _
    rfl
  split <;> simp [initAudit, h1]

theorem evaluateCondition_colon (ctx : Json) : evaluateCondition (.str ":") ctx = false := by
  simp only [evaluateCondition]
  rw [if_neg (by decide)]
  cases hcons : scopeConstructible ctx
  · simp [hcons]
  · simp only [hcons, Bool.not_true, Bool.false_eq_true, if_false]
    have h : axisEvalRet (axisScope ctx) ":" = none := rfl
    simp [h]

end SPC

/-! ## Oracle independence for builtin-free rule sets -/

namespace SPC

theorem resolveValue_oracle {v : Json} (h : templateUsesBuiltin v = false)
    (ctx : Json) (o o' : Oracle) : resolveValue v ctx o = resolveValue v ctx o' := by
  cases v with
  | str s =>
      simp only [templateUsesBuiltin] at h
      simp only [resolveValue]
      by_cases hb : includesPair '{' '{' s.data && includesPair '}' '}' s.data
      · simp only [hb, if_true, Bool.true_and] at h ⊢
        simp only [Bool.or_eq_false_iff, decide_eq_false_iff_not] at h
        obtain ⟨⟨h1, h2⟩, h3⟩ := h
        simp [h1, h2, h3]
      · simp [hb]
  | null => rfl
  | bool b => rfl
  | num n => rfl
  | arr l => rfl
  | obj f => rfl

theorem applyTransGo_oracle (n : String) (it : Nat) (o o' : Oracle) :
    ∀ (entries : List (String × Json)) (st : Json) ic co au fc,
    (∀ p ∈ entries, templateUsesBuiltin p.2 = false) →
    applyTransGo n it o entries st ic co au fc = applyTransGo n it o' entries st ic co au fc := by
  intro entries
  induction entries with
  | nil => intros; rfl
  | cons e rest ih =>
      intro st ic co au fc h
      obtain ⟨path, value⟩ := e
      have hv : templateUsesBuiltin value = false := h (path, value) (by simp)
      simp only [applyTransGo, resolveValue_oracle hv st o o']
      cases lookupFirst ic path <;>
        exact ih _ _ _ _ _ (fun p hp => h p (by simp [hp]))

theorem sweepRules_oracle (it : Nat) (o o' : Oracle) :
    ∀ (rules : List Rule) (st : Json) ch ic au co,
    (∀ r ∈ rules, builtinFreeRule r = true) →
    sweepRules o it rules st ch ic au co = sweepRules o' it rules st ch ic au co := by
  intro rules
  induction rules with
  | nil => intros; rfl
  | cons rule rest ih =>
      intro st ch ic au co h
      have hr : builtinFreeRule rule = true := h rule (by simp)
      have hrest : ∀ r ∈ rest, builtinFreeRule r = true := fun r hx => h r (by simp [hx])
      simp only [sweepRules]
      by_cases hc : evaluateCondition rule.«if» st
      · simp only [hc, if_true]
        cases hthen : rule.«then» with
        | none => exact ih _ _ _ _ _ hrest
        | some tr =>
            have htr : ∀ p ∈ tr, templateUsesBuiltin p.2 = false := by
              simp only [builtinFreeRule, hthen, List.all_eq_true] at hr
              intro p hp
              simpa using hr p hp
            simp only [applyTransformationsWithTracking,
              applyTransGo_oracle rule.name it o o' tr st ic [] [] [] htr]
            exact ih _ _ _ _ _ hrest
      · simp only [hc, if_false]
        exact ih _ _ _ _ _ hrest

theorem applyLoop_oracle (rules : List Rule) (o o' : Oracle)
    (h : ∀ r ∈ rules, builtinFreeRule r = true) :
    ∀ (fuel it : Nat) (st : Json) au co,
    applyLoop rules o fuel it st au co = applyLoop rules o' fuel it st au co := by
  intro fuel
  induction fuel with
  | zero => intros; rfl
  | succ fuel ih =>
      intro it st au co
      simp only [applyLoop, sweepRules_oracle (it + 1) o o' rules st false []
        (au ++ [⟨.info, .iterationMark (it + 1)⟩]) co h]
      split
      · exact ih _ _ _ _
      · rfl

theorem apply_oracle (s : Json) (cfg : RulesConfig) (o o' : Oracle)
    (h : builtinFreeConfig cfg = true) : apply s cfg o = apply s cfg o' := by
  have hs : ∀ r ∈ sortRules cfg.rules, builtinFreeRule r = true := by
    intro r hr
    have := List.all_eq_true.mp h
    exact this r (mem_sortRules hr)
  simp only [apply, applyLoop_oracle (sortRules cfg.rules) o o' hs]

theorem deterministicValue_builtinFree {v : Json} (h : deterministicValue v = true) :
    templateUsesBuiltin v = false := by
  cases v with
  | str s =>
      simp only [deterministicValue] at h
      simp only [templateUsesBuiltin]
      by_cases hb : (includesPair '{' '{' s.data && includesPair '}' '}' s.data) = true
      · rw [hb] at h ⊢
        simp only [Bool.not_true, Bool.false_or] at h
        have h1 : trimString (spliceTemplates s) ≠ "now()" := by
          intro hx; rw [hx] at h; exact absurd h (by decide)
        have h2 : trimString (spliceTemplates s) ≠ "timestamp()" := by
          intro hx; rw [hx] at h; exact absurd h (by decide)
        have h3 : trimString (spliceTemplates s) ≠ "uuid()" := by
          intro hx; rw [hx] at h; exact absurd h (by decide)
        simp [h1, h2, h3]
      · simp only [Bool.not_eq_true] at hb
        simp [hb]
  | null => rfl
  | bool b => rfl
  | num n => rfl
  | arr l => rfl
  | obj f => rfl

theorem deterministicConfig_builtinFree {cfg : RulesConfig}
    (h : deterministicConfig cfg = true) : builtinFreeConfig cfg = true := by
  simp only [deterministicConfig, builtinFreeConfig, List.all_eq_true] at h ⊢
  intro r hr
  have hrd := h r hr
  simp only [deterministicRule, Bool.and_eq_true] at hrd
  obtain ⟨-, h2⟩ := hrd
  simp only [builtinFreeRule]
  cases hthen : r.«then» with
  | none => rfl
  | some tr =>
      rw [hthen] at h2
      simp only [List.all_eq_true] at h2 ⊢
      intro p hp
      have := h2 p hp
      simp [deterministicValue_builtinFree this]

end SPC

namespace SPC

set_option maxHeartbeats 4000000

/-- C1 (counterexample): on the spec's sample scenario the engine does
not report 4 iterations — detecting convergence takes a fifth, no-change
sweep, so `Result.iterations` is 5. -/
theorem C1_counterexample :
    (apply c1State c1Config ⟨"", 0, ""⟩).iterations = 5 ∧
    (apply c1State c1Config ⟨"", 0, ""⟩).iterations ≠ 4 := by decide

/-- C1 (amended): for the input `\x7b a: 1 \x7d`, the `double` rule and
`max_iterations: 10`, `apply` returns output `\x7b a: 16 \x7d`,
`Result.iterations = 5` (four changing sweeps plus the convergence-
detecting sweep), and `rulesApplied = ["double","double","double",
"double"]` — for every oracle, since the rule set uses no
nondeterministic builtin. -/
theorem C1_sample_scenario : ∀ (o : Oracle),
    (apply c1State c1Config o).output = .obj (.cons "a" (.num 16) .nil) ∧
    (apply c1State c1Config o).iterations = 5 ∧
    (apply c1State c1Config o).rulesApplied = ["double", "double", "double", "double"] := by
  intro o
  rw [apply_oracle c1State c1Config o ⟨"", 0, ""⟩ (by decide)]
  exact ⟨by decide, by decide, by decide⟩

/-- C2 (counterexample): on the conflict scenario the run does not
converge at iteration 2 with a single conflict entry — rule `r1`
rewrites the path every sweep, so the per-rule change check fires each
sweep, the loop runs to the cap of 10, and one conflict is recorded per
sweep. -/
theorem C2_counterexample :
    (apply (.obj .nil) c2Config ⟨"", 0, ""⟩).iterations = 10 ∧
    (apply (.obj .nil) c2Config ⟨"", 0, ""⟩).conflicts.length = 10 ∧
    ¬((apply (.obj .nil) c2Config ⟨"", 0, ""⟩).iterations = 2 ∧
      (apply (.obj .nil) c2Config ⟨"", 0, ""⟩).conflicts.length = 1) := by decide

/-- C2 (amended): for input `\x7b\x7d` and the two always-true rules `r1`
(priority 1, writes `"A"`) and `r2` (priority 2, writes `"B"`), `apply`
returns output with `status = "B"`, but the run hits the default cap of
10 iterations (each sweep, `r1`'s write of `"A"` over `"B"` counts as a
change), records one conflict entry per sweep — each with
`previousRule = "r1"`, `currentRule = "r2"` — and applies both rules in
every sweep. -/
theorem C2_conflict_scenario : ∀ (o : Oracle),
    (apply (.obj .nil) c2Config o).output = .obj (.cons "status" (.str "B") .nil) ∧
    (apply (.obj .nil) c2Config o).iterations = 10 ∧
    (apply (.obj .nil) c2Config o).conflicts =
      (List.range 10).map (fun k => ⟨"status", "r1", "r2", "priority_override", k + 1⟩) ∧
    (apply (.obj .nil) c2Config o).rulesApplied =
      (List.range 10).flatMap (fun _ => ["r1", "r2"]) := by
  intro o
  rw [apply_oracle (.obj .nil) c2Config o ⟨"", 0, ""⟩ (by decide)]
  exact ⟨by decide, by decide, by decide, by decide⟩

/-- C9 (counterexample): conflicts are recorded purely by path, not by
writer name — two rules that share the name `dup` and write the same
path produce conflict entries whose `previousRule` and `currentRule` are
the *same* name, contradicting the "only if written by a rule with a
different name" claim. -/
theorem C9_counterexample :
    (apply (.obj .nil) c9Config ⟨"", 0, ""⟩).conflicts =
      [⟨"p", "dup", "dup", "priority_override", 1⟩,
       ⟨"p", "dup", "dup", "priority_override", 2⟩] := by decide

/-- C9 (amended): when a rule writes path `p`, a conflict entry is
appended if and only if `p` is already in the per-sweep write log —
regardless of whether the earlier writer had a different name; the entry
records the field, the previous writer, the current rule and the current
iteration, and the write itself always proceeds (the new state is the
fold of `setNestedPath` over the resolved values, conflicts
notwithstanding). -/
theorem C9_conflict_logging :
    (∀ (st : Json) (p : String) (v : Json) (name : String)
        (ic : List (String × String)) (it : Nat) (o : Oracle),
      (applyTransformationsWithTracking st [(p, v)] name ic it o).conflicts =
        (match lookupFirst ic p with
         | some prev => [⟨p, prev, name, "priority_override", it⟩]
         | none => [])) ∧
    (∀ (st : Json) (tr : List (String × Json)) (name : String)
        (ic : List (String × String)) (it : Nat) (o : Oracle),
      (applyTransformationsWithTracking st tr name ic it o).newState = transFold o st tr) := by
  constructor
  · intro st p v name ic it o
    simp only [applyTransformationsWithTracking, applyTransGo]
    cases lookupFirst ic p <;> rfl
  · intro st tr name ic it o
    exact applyTrans_newState st tr name ic it o

end SPC

namespace SPC

theorem lookupLast_foldl (n : String) :
    ∀ (l : List (String × CtxVal)) (acc : Option CtxVal),
    List.foldl (fun acc p => if p.1 = n then some p.2 else acc) acc l =
      match List.foldl (fun acc p => if p.1 = n then some p.2 else acc) none l with
      | some v => some v
      | none => acc := by
  intro l
  induction l with
  | nil => intro acc; rfl
  | cons p rest ih =>
      intro acc
      simp only [List.foldl_cons]
      by_cases h : p.1 = n
      · simp only [h, if_true]
        rw [ih (some p.2)]
        cases List.foldl (fun acc p => if p.1 = n then some p.2 else acc) none rest <;> rfl
      · simp only [h, if_false]
        rw [ih acc]

theorem lookupLast_append (a b : List (String × CtxVal)) (n : String) :
    lookupLast (a ++ b) n =
      match lookupLast b n with
      | some v => some v
      | none => lookupLast a n := by
  simp only [lookupLast, List.foldl_append]
  rw [lookupLast_foldl n b]

theorem lookupLast_utilities {n : String} (h : n ∈ utilityNames) :
    lookupLast (utilityNames.map (fun u => (u, CtxVal.builtin u))) n =
      some (.builtin n) := by
  fin_cases h <;> rfl

/-- C10: the utility namespace is merged after the flattened and
top-level state entries, so whenever a state key collides with a utility
name, the evaluation scope resolves that name to the builtin utility,
not the state's value. -/
theorem C10_utilities_override : ∀ (state : Json) (n : String),
    n ∈ utilityNames →
    (n ∈ (flattenObject state "").map Prod.fst ∨ n ∈ (topEntries state).map Prod.fst) →
    lookupLast (createSafeContext state) n = some (.builtin n) := by
  intro state n hn _
  simp only [createSafeContext]
  rw [List.append_assoc, lookupLast_append, lookupLast_append,
    lookupLast_utilities hn]

/-- C10 (witness): a state whose top-level key `Math` holds `5` still
sees the builtin `Math` in its evaluation scope. -/
theorem C10_utilities_override_witness :
    lookupLast (createSafeContext (.obj (.cons "Math" (.num 5) .nil))) "Math" =
      some (.builtin "Math") :=
  C10_utilities_override (.obj (.cons "Math" (.num 5) .nil)) "Math"
    (by decide) (Or.inr (by decide))

end SPC

namespace SPC

/-- C3 (counterexample): the canonical engine's `resolveValue` does not
restrict evaluation to whole-string `\x7b\x7b ... \x7d\x7d` templates.
The partial-template string `"\x7b\x7b1\x7d\x7d+1"` does not match the
whole-string pattern, yet it is not written verbatim: its bracketed
group is spliced out and the result `1+1` evaluates to the number 2. -/
theorem C3_counterexample :
    SPCEngine.wholeTemplateMatch "\x7b\x7b1\x7d\x7d+1" = none ∧
    resolveValue (.str "\x7b\x7b1\x7d\x7d+1") (.obj .nil) ⟨"", 0, ""⟩ = .num 2 ∧
    resolveValue (.str "\x7b\x7b1\x7d\x7d+1") (.obj .nil) ⟨"", 0, ""⟩ ≠
      .str "\x7b\x7b1\x7d\x7d+1" := by
  exact ⟨by decide, by decide, by decide⟩

/-- C3 (amended): whole-string-only template matching holds for
`SPCEngine.resolveTemplate` (a non-matching string always passes through
verbatim, and `"\x7b\x7b 1 + 1 \x7d\x7d"` evaluates to the number 2
whenever the evaluation scope is constructible from the context's keys).
The canonical engine's `resolveValue` instead attempts evaluation on any
string containing both `\x7b\x7b` and `\x7d\x7d`; the claim's examples
still behave as stated there — a string with no brace pair passes
through verbatim, `"Result: \x7b\x7bx\x7d\x7d"` passes through verbatim
for every context (its spliced expression `Result: x` is a syntax
error, and an unconstructible scope throws even earlier), and
`"\x7b\x7b 1 + 1 \x7d\x7d"` is written as the number 2 under a
constructible scope, while a context with an invalid-identifier key
(e.g. `"a-b"`) makes `new Function` itself throw, so even
`"\x7b\x7b 1 + 1 \x7d\x7d"` then falls back to the template string. -/
theorem C3_template_matching :
    (∀ (s : String) (ctx : Json),
      SPCEngine.wholeTemplateMatch s = none →
      SPCEngine.resolveTemplate (.str s) ctx = .str s) ∧
    (∀ (ctx : Json),
      SPCEngine.scopeConstructible ctx = true →
      SPCEngine.resolveTemplate (.str "\x7b\x7b 1 + 1 \x7d\x7d") ctx = .num 2) ∧
    (∀ (s : String) (ctx : Json) (o : Oracle),
      (includesPair '{' '{' s.data && includesPair '}' '}' s.data) = false →
      resolveValue (.str s) ctx o = .str s) ∧
    (∀ (ctx : Json) (o : Oracle),
      resolveValue (.str "Result: \x7b\x7bx\x7d\x7d") ctx o =
        .str "Result: \x7b\x7bx\x7d\x7d") ∧
    (∀ (ctx : Json) (o : Oracle),
      scopeConstructible ctx = true →
      resolveValue (.str "\x7b\x7b 1 + 1 \x7d\x7d") ctx o = .num 2) ∧
    (∀ (o : Oracle),
      resolveValue (.str "\x7b\x7b 1 + 1 \x7d\x7d") (.obj (.cons "a-b" (.num 1) .nil)) o =
        .str "\x7b\x7b 1 + 1 \x7d\x7d") := by
  refine ⟨?_, ?_, ?_, ?_, ?_, ?_⟩
  · intro s ctx h
    simp [SPCEngine.resolveTemplate, h]
  · intro ctx h
    have e1 : SPCEngine.wholeTemplateMatch "\x7b\x7b 1 + 1 \x7d\x7d" = some "1 + 1" := by
      decide
    simp only [SPCEngine.resolveTemplate, e1, h, Bool.not_true, Bool.false_eq_true, if_false]
    have e2 : (if ("1 + 1" : String) = "" then none
        else evalExprStr (SPCEngine.scope ctx) "1 + 1") = some (.num 2) := rfl
    simp only [e2]
  · intro s ctx o h
    simp [resolveValue, h]
  · intro ctx o
    have hb : (includesPair '{' '{' ("Result: \x7b\x7bx\x7d\x7d" : String).data &&
        includesPair '}' '}' ("Result: \x7b\x7bx\x7d\x7d" : String).data) = true := by decide
    have e0 : trimString (spliceTemplates "Result: \x7b\x7bx\x7d\x7d") = "Result: x" := by
      decide
    simp only [resolveValue, hb, if_true, e0]
    rw [if_neg (by decide), if_neg (by decide), if_neg (by decide)]
    cases hcons : scopeConstructible ctx
    · simp [hcons]
    · simp only [hcons, Bool.not_true, Bool.false_eq_true, if_false]
      have e1 : axisEvalRet (axisScope ctx) "Result: x" = none := rfl
      simp [e1]
  · intro ctx o h
    have hb : (includesPair '{' '{' ("\x7b\x7b 1 + 1 \x7d\x7d" : String).data &&
        includesPair '}' '}' ("\x7b\x7b 1 + 1 \x7d\x7d" : String).data) = true := by decide
    have e0 : trimString (spliceTemplates "\x7b\x7b 1 + 1 \x7d\x7d") = "1 + 1" := by decide
    simp only [resolveValue, hb, if_true, e0]
    rw [if_neg (by decide), if_neg (by decide), if_neg (by decide)]
    simp only [h, Bool.not_true, Bool.false_eq_true, if_false]
    have e1 : axisEvalRet (axisScope ctx) "1 + 1" = some (.num 2) := rfl
    simp [e1]
  · intro o
    have hb : (includesPair '{' '{' ("\x7b\x7b 1 + 1 \x7d\x7d" : String).data &&
        includesPair '}' '}' ("\x7b\x7b 1 + 1 \x7d\x7d" : String).data) = true := by decide
    have e0 : trimString (spliceTemplates "\x7b\x7b 1 + 1 \x7d\x7d") = "1 + 1" := by decide
    simp only [resolveValue, hb, if_true, e0]
    rw [if_neg (by decide), if_neg (by decide), if_neg (by decide)]
    have hcons : scopeConstructible (.obj (.cons "a-b" (.num 1) .nil)) = false := by decide
    simp [hcons]

/-- C3 (witness): the passthrough branches at the concrete input
`"plain text"`. -/
theorem C3_template_matching_witness :
    SPCEngine.resolveTemplate (.str "plain text") (.obj .nil) = .str "plain text" ∧
    resolveValue (.str "plain text") (.obj .nil) ⟨"", 0, ""⟩ = .str "plain text" ∧
    resolveValue (.str "\x7b\x7b 1 + 1 \x7d\x7d") (.obj .nil) ⟨"", 0, ""⟩ = .num 2 :=
  ⟨C3_template_matching.1 "plain text" (.obj .nil) (by decide),
   C3_template_matching.2.2.1 "plain text" (.obj .nil) ⟨"", 0, ""⟩ (by decide),
   C3_template_matching.2.2.2.2.1 (.obj .nil) ⟨"", 0, ""⟩ (by decide)⟩

/-- C4 (counterexample): `apply` is not a function of `(state, rules)`
alone — a rule whose template is `\x7b\x7bnow()\x7d\x7d`, run with the
iteration cap at 1 (so each call reads the clock exactly once), produces
different outputs in two calls whose ambient clock readings differ. -/
theorem C4_counterexample :
    (apply (.obj .nil) c4Config ⟨"T1", 0, ""⟩).output ≠
      (apply (.obj .nil) c4Config ⟨"T2", 0, ""⟩).output := by decide

/-- C4 (amended): two `apply` calls on the same inputs agree on output,
iteration count and applied-rule sequence — whatever the ambient clock
and randomness of each call — for every rule set whose conditions and
spliced templates lie in the call-free, member-access-free expression
fragment: such expressions can reach neither the `now()`/`timestamp()`/
`uuid()` builtins nor the `Math`/`Date` utilities' methods, so their
evaluation is a pure function of the state. -/
theorem C4_determinism : ∀ (s : Json) (cfg : RulesConfig) (o o' : Oracle),
    deterministicConfig cfg = true →
    (apply s cfg o).output = (apply s cfg o').output ∧
    (apply s cfg o).iterations = (apply s cfg o').iterations ∧
    (apply s cfg o).rulesApplied = (apply s cfg o').rulesApplied := by
  intro s cfg o o' h
  rw [apply_oracle s cfg o o' (deterministicConfig_builtinFree h)]
  exact ⟨rfl, rfl, rfl⟩

/-- C4 (witness): the doubling rule set lies in the deterministic
fragment, and two runs under different ambient environments agree. -/
theorem C4_determinism_witness :
    deterministicConfig c4FreeConfig = true ∧
    (apply (.obj (.cons "a" (.num 1) .nil)) c4FreeConfig ⟨"X", 1, "u1"⟩).output =
      (apply (.obj (.cons "a" (.num 1) .nil)) c4FreeConfig ⟨"Y", 2, "u2"⟩).output :=
  ⟨by decide,
   (C4_determinism (.obj (.cons "a" (.num 1) .nil)) c4FreeConfig
     ⟨"X", 1, "u1"⟩ ⟨"Y", 2, "u2"⟩ (by decide)).1⟩

end SPC

namespace SPC

theorem apply_maxWarning (s : Json) (cfg : RulesConfig) (o : Oracle)
    (h : (apply s cfg o).iterations = effMaxIterations cfg) :
    (⟨.warning, .stoppedAtMax (effMaxIterations cfg)⟩ : AuditEntry) ∈ (apply s cfg o).audit := by
  simp only [apply] at h ⊢
  cases happ : applyLoop (sortRules cfg.rules) o (effMaxIterations cfg) 0 s
      (initAudit cfg) [] with
  | mk st1 it1 au1 co1 =>
      rw [happ] at h
      simp only at h ⊢
      rw [if_pos (by omega)]
      simp

/-- C5: `apply` always terminates (it is a total function of its
arguments); the loop performs exactly the sweeps the specification
describes — sweeps until the first no-change sweep, capped at
`max_iterations` (default 10 when the field is absent or 0) — hence
`Result.iterations ≤ max_iterations`; when the run stops below the cap
one further sweep leaves the output unchanged; and when the cap is
reached this is reported by a warning audit entry, with
`Result.iterations = max_iterations`, not by an error. -/
theorem C5_termination : ∀ (s : Json) (cfg : RulesConfig) (o : Oracle),
    (apply s cfg o).iterations ≤ effMaxIterations cfg ∧
    (cfg.max_iterations = none → effMaxIterations cfg = 10) ∧
    (apply s cfg o).iterations =
      specRunCount o (sortRules cfg.rules) s (effMaxIterations cfg) ∧
    ((apply s cfg o).iterations < effMaxIterations cfg →
      sweepPureGo o (sortRules cfg.rules) ((apply s cfg o).output, false) =
        ((apply s cfg o).output, false)) ∧
    ((apply s cfg o).iterations = effMaxIterations cfg →
      (⟨.warning, .stoppedAtMax (effMaxIterations cfg)⟩ : AuditEntry) ∈
        (apply s cfg o).audit) := by
  intro s cfg o
  refine ⟨?_, ?_, apply_iterations_eq s cfg o, ?_, apply_maxWarning s cfg o⟩
  · rw [apply_iterations_eq]
    exact specRunCount_le o (sortRules cfg.rules) (effMaxIterations cfg) s
  · intro h
    simp [effMaxIterations, h]
  · intro h
    rw [apply_iterations_eq] at h
    rw [apply_output_eq]
    exact specRun_converged o (sortRules cfg.rules) (effMaxIterations cfg) s h

/-- C5 (witness): an empty rule set converges in one sweep (below the
default cap of 10) and a further sweep is a no-op; the toggling rule set
reaches the cap and the max-iterations warning appears in its audit. -/
theorem C5_termination_witness :
    (apply (.obj .nil) ⟨none, []⟩ ⟨"", 0, ""⟩).iterations ≤ 10 ∧
    sweepPureGo ⟨"", 0, ""⟩ (sortRules ([] : List Rule))
        ((apply (.obj .nil) ⟨none, []⟩ ⟨"", 0, ""⟩).output, false) =
      ((apply (.obj .nil) ⟨none, []⟩ ⟨"", 0, ""⟩).output, false) ∧
    (⟨.warning, .stoppedAtMax 10⟩ : AuditEntry) ∈
      (apply (.obj (.cons "x" (.num 0) .nil)) c5CapConfig ⟨"", 0, ""⟩).audit :=
  ⟨(C5_termination (.obj .nil) ⟨none, []⟩ ⟨"", 0, ""⟩).1,
   (C5_termination (.obj .nil) ⟨none, []⟩ ⟨"", 0, ""⟩).2.2.2.1 (by decide),
   (C5_termination (.obj (.cons "x" (.num 0) .nil)) c5CapConfig ⟨"", 0, ""⟩).2.2.2.2
     (by decide)⟩

/-- C8 (counterexample): convergence of `apply(S, R)` below the cap does
not make `apply(S', R)` converge in 1 iteration with output `S'` when
`R` reads the environment.  A rule writing `\x7b\x7bnow()\x7d\x7d`
converges in the first call when its two clock draws coincide (the same
millisecond — here the model's per-call-constant draw); a later
`apply(S', R)` under an advanced clock overwrites the stamp: it takes 2
iterations and returns a different output. -/
theorem C8_counterexample :
    (apply (.obj .nil) c8NowConfig ⟨"T1", 0, ""⟩).iterations <
      effMaxIterations c8NowConfig ∧
    (apply (apply (.obj .nil) c8NowConfig ⟨"T1", 0, ""⟩).output
        c8NowConfig ⟨"T2", 0, ""⟩).iterations ≠ 1 ∧
    (apply (apply (.obj .nil) c8NowConfig ⟨"T1", 0, ""⟩).output
        c8NowConfig ⟨"T2", 0, ""⟩).output ≠
      (apply (.obj .nil) c8NowConfig ⟨"T1", 0, ""⟩).output := by
  exact ⟨by decide, by decide, by decide⟩

/-- C8 (amended): for rule sets whose conditions and spliced templates
lie in the call-free, member-access-free fragment — so no clock or
randomness can be read — if `apply(S, R)` converges (iterations strictly
below the cap) with output `S'`, then `apply(S', R)`, run under any
ambient environment, converges in exactly 1 iteration with output `S'`. -/
theorem C8_idempotence : ∀ (s : Json) (cfg : RulesConfig) (o o' : Oracle),
    deterministicConfig cfg = true →
    (apply s cfg o).iterations < effMaxIterations cfg →
    (apply (apply s cfg o).output cfg o').iterations = 1 ∧
    (apply (apply s cfg o).output cfg o').output = (apply s cfg o).output := by
  intro s cfg o o' hdet h
  rw [apply_oracle (apply s cfg o).output cfg o' o (deterministicConfig_builtinFree hdet)]
  rw [apply_iterations_eq] at h
  have hconv := specRun_converged o (sortRules cfg.rules) (effMaxIterations cfg) s h
  obtain ⟨m, hm⟩ : ∃ m, effMaxIterations cfg = m + 1 := by
    have := effMax_pos cfg
    exact ⟨effMaxIterations cfg - 1, by omega⟩
  set S := specRunState o (sortRules cfg.rules) s (effMaxIterations cfg) with hS
  have hout : (apply s cfg o).output = S := apply_output_eq s cfg o
  rw [hout]
  constructor
  · rw [apply_iterations_eq S cfg o, hm]
    simp only [specRunCount]
    rw [hconv]
  · rw [apply_output_eq S cfg o, hm]
    simp only [specRunState]
    rw [hconv]

/-- C8 (witness): the doubling scenario is in the deterministic
fragment and converges in 5 of 10 permitted iterations; re-applying the
rules to its output `\x7b a: 16 \x7d` under a different ambient
environment stops after one iteration with the same output. -/
theorem C8_idempotence_witness :
    (apply (apply (.obj (.cons "a" (.num 1) .nil)) c8Config ⟨"", 0, ""⟩).output
        c8Config ⟨"other", 9, "u"⟩).iterations = 1 ∧
    (apply (apply (.obj (.cons "a" (.num 1) .nil)) c8Config ⟨"", 0, ""⟩).output
        c8Config ⟨"other", 9, "u"⟩).output =
      (apply (.obj (.cons "a" (.num 1) .nil)) c8Config ⟨"", 0, ""⟩).output :=
  C8_idempotence (.obj (.cons "a" (.num 1) .nil)) c8Config ⟨"", 0, ""⟩
    ⟨"other", 9, "u"⟩ (by decide) (by decide)

end SPC

namespace SPC

/-- C7: every expression-evaluation failure is recovered locally.  A
condition string whose evaluation fails (and which is not the empty
string, which the falsy guard maps to `true` before any evaluation —
and whose evaluation in fact cannot fail, `return` of an empty
expression being legal) makes `evaluateCondition` return `false`; a
template whose spliced expression is not a builtin and fails to
evaluate resolves to the original string, unchanged; and a run whose
rule conditions never hold returns the input state untouched with no
rules applied — `apply` is a total function, never an exception. -/
theorem C7_failure_recovery :
    (∀ (c : String) (ctx : Json),
      axisEvalRet (axisScope ctx) c = none →
      evaluateCondition (.str c) ctx = false) ∧
    (∀ (s : String) (ctx : Json) (o : Oracle),
      (includesPair '{' '{' s.data && includesPair '}' '}' s.data) = true →
      trimString (spliceTemplates s) ∉ (["now()", "timestamp()", "uuid()"] : List String) →
      axisEvalRet (axisScope ctx) (trimString (spliceTemplates s)) = none →
      resolveValue (.str s) ctx o = .str s) ∧
    (∀ (st : Json) (cfg : RulesConfig) (o : Oracle),
      (∀ r ∈ cfg.rules, ∀ ctx, evaluateCondition r.«if» ctx = false) →
      (apply st cfg o).output = st ∧ (apply st cfg o).rulesApplied = []) := by
  refine ⟨?_, ?_, ?_⟩
  · intro c ctx h
    by_cases hc : c = ""
    · exfalso
      subst hc
      simp [axisEvalRet, trimString] at h
    · simp only [evaluateCondition, condFalsy]
      rw [if_neg (by simpa using hc)]
      rw [h]
      split <;> rfl
  · intro s ctx o hb hnb h
    have h1 : trimString (spliceTemplates s) ≠ "now()" := by
      intro hx; exact hnb (by simp [hx])
    have h2 : trimString (spliceTemplates s) ≠ "timestamp()" := by
      intro hx; exact hnb (by simp [hx])
    have h3 : trimString (spliceTemplates s) ≠ "uuid()" := by
      intro hx; exact hnb (by simp [hx])
    simp only [resolveValue, hb, if_true]
    rw [if_neg h1, if_neg h2, if_neg h3, h]
    split <;> rfl
  · intro st cfg o h
    exact apply_nofire st cfg o h

/-- C7 (witness): the unparsable condition `":"` is skipped as `false`;
the partial template `"Result: \x7b\x7bx\x7d\x7d"` (spliced expression
`Result: x`, a syntax error) resolves to itself; a run whose only rule
has the condition `":"` leaves the input state `\x7b\x7d` unchanged with
no rules applied. -/
theorem C7_failure_recovery_witness :
    evaluateCondition (.str ":") (.obj .nil) = false ∧
    resolveValue (.str "Result: \x7b\x7bx\x7d\x7d") (.obj .nil) ⟨"", 0, ""⟩ =
      .str "Result: \x7b\x7bx\x7d\x7d" ∧
    (apply (.obj .nil) ⟨none, [⟨"r", some 1, .str ":", some [("x", .num 1)]⟩]⟩
      ⟨"", 0, ""⟩).output = .obj .nil := by
  refine ⟨C7_failure_recovery.1 ":" (.obj .nil) (by decide),
    C7_failure_recovery.2.1 "Result: \x7b\x7bx\x7d\x7d" (.obj .nil) ⟨"", 0, ""⟩
      (by decide) (by decide) (by decide), ?_⟩
  have h := (C7_failure_recovery.2.2 (.obj .nil)
    ⟨none, [⟨"r", some 1, .str ":", some [("x", .num 1)]⟩]⟩ ⟨"", 0, ""⟩ ?_).1
  · exact h
  · intro r hr ctx
    simp only [List.mem_singleton] at hr
    subst hr
    exact evaluateCondition_colon ctx

end SPC
